import Mathlib

/-!
Formal model of the typing game (src/src/components/TypingGame.tsx).

Modelling conventions:
- JS strings are `List Char` (indexed per character, like JS string indexing).
- Timestamps in milliseconds (`Date.now()`) are `Nat`; elapsed seconds are
  `Int` (the JS value `Math.floor((now - start) / 1000)` is an integer that
  can in principle be negative).
- `toLowerCase()` is `Char.toLower`, which covers the ASCII range typable on
  the modelled keyboard.
- React state is a record `GameState`; each event handler is a function on it.
  `setState` calls made by a handler are modelled by the record update the
  handler has produced when it returns; `useEffect` blocks whose dependencies
  changed run after the handler (function `runEffects`).
- `localStorage` reads are nondeterministic inputs (an `Option Int` parameter);
  writes appear in the `KeyEffects` record returned by the keystroke handler.
- A thrown JS `TypeError` is `Except.error`; the payload is the state as
  already updated by the `setState` calls issued before the throw.
-/

namespace TypingGame

/-- The special-character substitution table `specialCharMap`
(TypingGame.tsx lines 10-28), in source order: each display character maps to
its replacement string in the typing form of a phrase. -/
def specialCharMap : List (Char × List Char) :=
  [('₂', ['2']), ('₃', ['3']), ('₄', ['4']), ('₁', ['1']),
   ('–', ['-']), ('—', ['-']), ('°', ['o']), ('≥', ['>']),
   ('≤', ['<']), ('±', ['+']), ('×', ['x']), ('μ', ['u']),
   ('™', []), ('®', []), ('©', [])]

/-- The call `typingVersion.replace(new RegExp(display, 'g'), typing)` for a
single-character pattern: replace every occurrence of `pat` by `rep`. -/
def replaceAllChar (pat : Char) (rep : List Char) (s : List Char) : List Char :=
  s.flatMap (fun c => if c = pat then rep else [c])

/-- The typing form built by `setupPhrase` (lines 63-75): the substitutions of
`specialCharMap` applied in sequence to the original phrase. -/
def setupTyping (originalPhrase : List Char) : List Char :=
  specialCharMap.foldl (fun acc e => replaceAllChar e.1 e.2 acc) originalPhrase

/-- Result of `setupPhrase`: the display form and the typing form. -/
structure PhrasePair where
  display : List Char
  typing : List Char
  deriving Repr, DecidableEq

/-- Function `setupPhrase` (lines 63-75). -/
def setupPhrase (originalPhrase : List Char) : PhrasePair :=
  { display := originalPhrase, typing := setupTyping originalPhrase }

/-- A phrase set (`interface PhraseSet`, lines 4-7). -/
structure PhraseSet where
  name : List Char
  phrases : List (List Char)
  deriving Repr, DecidableEq

/-- The React state of the component that the modelled handlers read and
write (state declarations, lines 33-55).  The preference toggles
(`showKeyboard`, `showSpaceCharacter`, `enableKeyTTS`) only gate rendering
and speech output and are omitted. -/
structure GameState where
  currentSetKey : List Char
  currentPhraseIndex : Nat
  displayPhrase : List Char
  typingPhrase : List Char
  userInput : List Char
  currentIndex : Nat
  startTime : Option Nat
  elapsedTime : Int
  isTimerRunning : Bool
  previousTime : Option Int
  deriving Repr, DecidableEq

/-- JS truthiness of the `startTime : number | null` field: `!startTime` is
true exactly when the field is `null` or `0`. -/
def startTimeFalsy : Option Nat → Bool
  | none => true
  | some n => n == 0

/-- Side effects of one call to the keystroke handler: the `localStorage`
write made on completion (key and stored seconds), the computed best-time
difference, and the delay of the single `setTimeout` scheduled to advance to
the next phrase. -/
structure KeyEffects where
  persisted : Option (List Char × Int)
  timeDifference : Option Int
  scheduledAdvanceMs : Option Nat
  deriving Repr, DecidableEq

/-- The effect record of a call that completed no phrase. -/
def noEffects : KeyEffects :=
  { persisted := none, timeDifference := none, scheduledAdvanceMs := none }

/-- Function `handleKeyPress` (lines 221-285).  The handler first starts the timer
when `currentIndex === 0 && !startTime`, then reads
`typingPhrase[currentIndex]`; when the cursor is at or past the end that read
yields `undefined` and `expectedChar.toLowerCase()` throws a `TypeError`,
modelled as `Except.error` carrying the state updated so far.  On a
case-insensitive match the original phrase character is appended to
`userInput` and the cursor incremented; reaching the phrase length stops the
timer, persists the final time under the key `typingTime-` followed by the
typing phrase, computes `previousTime - finalTime` when a previous time
exists, and schedules one advance after 3000 ms. -/
def handleKeyPress (s : GameState) (char : Char) (now : Nat) :
    Except GameState (GameState × KeyEffects) :=
  let s1 := if s.currentIndex = 0 ∧ startTimeFalsy s.startTime then
      { s with startTime := some now, isTimerRunning := true }
    else s
  match s1.typingPhrase.get? s1.currentIndex with
  | none => Except.error s1
  | some expectedChar =>
    if char.toLower = expectedChar.toLower then
      let newUserInput := s1.userInput ++ [expectedChar]
      let newIndex := s1.currentIndex + 1
      let s2 := { s1 with userInput := newUserInput, currentIndex := newIndex }
      if newIndex = s2.typingPhrase.length then
        let finalTime := s2.elapsedTime
        Except.ok ({ s2 with isTimerRunning := false },
          { persisted := some ("typingTime-".data ++ s2.typingPhrase, finalTime),
            timeDifference := s2.previousTime.map (fun p => p - finalTime),
            scheduledAdvanceMs := some 3000 })
      else
        Except.ok (s2, noEffects)
    else
      Except.ok (s1, noEffects)

/-- The state after one keystroke event: the handler's result state, which in
the throwing case is the state updated by the `setState` calls issued before
the throw. -/
def keyStep (s : GameState) (char : Char) (now : Nat) : GameState :=
  match handleKeyPress s char now with
  | Except.ok r => r.1
  | Except.error e => e

/-- Function `goToNextPhrase` (lines 135-147): when the current set key resolves,
advance the phrase index with wraparound modulo the set's phrase count and
reset input, cursor, timer fields and the loaded previous time. -/
def goToNextPhrase (sets : List (List Char × PhraseSet)) (s : GameState) : GameState :=
  match sets.lookup s.currentSetKey with
  | some currentSet =>
    { s with currentPhraseIndex := (s.currentPhraseIndex + 1) % currentSet.phrases.length,
             userInput := [], currentIndex := 0, startTime := none,
             elapsedTime := 0, isTimerRunning := false, previousTime := none }
  | none => s

/-- Function `goToPrevPhrase` (lines 150-163).  The JS index arithmetic
`(currentPhraseIndex - 1 + phrases.length)` is the integer
`currentPhraseIndex + phrases.length - 1`, which is the same value in `Nat`
whenever the set is nonempty (for an empty set the JS code produces `NaN`;
navigation is only exercised on nonempty sets). -/
def goToPrevPhrase (sets : List (List Char × PhraseSet)) (s : GameState) : GameState :=
  match sets.lookup s.currentSetKey with
  | some currentSet =>
    { s with currentPhraseIndex :=
               (s.currentPhraseIndex + currentSet.phrases.length - 1) % currentSet.phrases.length,
             userInput := [], currentIndex := 0, startTime := none,
             elapsedTime := 0, isTimerRunning := false, previousTime := none }
  | none => s

/-- The `useEffect` on `[availableSets, currentSetKey, currentPhraseIndex]`
(lines 78-87): when the set resolves and is nonempty, recompute the display
and typing phrases from the phrase at the current index.  (The code indexes
`phrases[currentPhraseIndex]` without a bounds check; in every reachable
state the index is in range, and the out-of-range case is modelled as a
no-op.) -/
def refreshPhrase (sets : List (List Char × PhraseSet)) (s : GameState) : GameState :=
  match sets.lookup s.currentSetKey with
  | some currentSet =>
    if 0 < currentSet.phrases.length then
      match currentSet.phrases.get? s.currentPhraseIndex with
      | some phrase =>
        let phraseData := setupPhrase phrase
        { s with displayPhrase := phraseData.display, typingPhrase := phraseData.typing }
      | none => s
    else s
  | none => s

/-- The effect cascade after a handler: the phrase-refreshing `useEffect`
(lines 78-87) reruns when the set key or phrase index changed, and the
`useEffect` on `[typingPhrase]` (lines 166-179) reruns when the typing phrase
changed, overwriting `previousTime` with the value read from `localStorage`
(`stored`). -/
def runEffects (sets : List (List Char × PhraseSet)) (s0 s : GameState)
    (stored : Option Int) : GameState :=
  let s1 := if s.currentSetKey ≠ s0.currentSetKey ∨ s.currentPhraseIndex ≠ s0.currentPhraseIndex
    then refreshPhrase sets s else s
  if s1.typingPhrase ≠ s0.typingPhrase then { s1 with previousTime := stored } else s1

/-- JS `String.prototype.trim`: drop whitespace from both ends. -/
def jsTrim (s : List Char) : List Char :=
  ((s.dropWhile Char.isWhitespace).reverse.dropWhile Char.isWhitespace).reverse

/-- Function `handlePhraseSubmit` (lines 287-312): when the submitted text is nonempty
after trimming, install it as the new phrase, reset input, cursor and timer
fields, and load the previous time stored for the new typing phrase
(`stored`). -/
def handlePhraseSubmit (s : GameState) (customPhrase : List Char)
    (stored : Option Int) : GameState :=
  let trimmed := jsTrim customPhrase
  if trimmed ≠ [] then
    let phraseData := setupPhrase trimmed
    { s with displayPhrase := phraseData.display, typingPhrase := phraseData.typing,
             userInput := [], currentIndex := 0, startTime := none,
             elapsedTime := 0, isTimerRunning := false, previousTime := stored }
  else s

/-- Function `handleSetChange` (lines 314-323): switch to the selected set key and
reset phrase index, input, cursor and timer fields (unconditionally). -/
def handleSetChange (s : GameState) (newSetKey : List Char) : GameState :=
  { s with currentSetKey := newSetKey, currentPhraseIndex := 0,
           userInput := [], currentIndex := 0, startTime := none,
           elapsedTime := 0, isTimerRunning := false }

/-- The timer interval callback (lines 196-202): while the timer is running
and `startTime` is truthy, set `elapsedTime` to
`Math.floor((now - startTime) / 1000)`. -/
def timerTick (s : GameState) (now : Nat) : GameState :=
  match s.isTimerRunning, s.startTime with
  | true, some start =>
    if start = 0 then s
    else { s with elapsedTime := Int.fdiv ((now : Int) - (start : Int)) 1000 }
  | _, _ => s

/-- Next-phrase navigation as one observable step: the click handler followed
by the effect cascade. -/
def nextStep (sets : List (List Char × PhraseSet)) (s : GameState)
    (stored : Option Int) : GameState :=
  runEffects sets s (goToNextPhrase sets s) stored

/-- Previous-phrase navigation as one observable step. -/
def prevStep (sets : List (List Char × PhraseSet)) (s : GameState)
    (stored : Option Int) : GameState :=
  runEffects sets s (goToPrevPhrase sets s) stored

/-- Set selection as one observable step. -/
def setChangeStep (sets : List (List Char × PhraseSet)) (s : GameState)
    (newSetKey : List Char) (stored : Option Int) : GameState :=
  runEffects sets s (handleSetChange s newSetKey) stored

/-- Custom-phrase submission as one observable step. -/
def submitStep (sets : List (List Char × PhraseSet)) (s : GameState)
    (customPhrase : List Char) (stored : Option Int) : GameState :=
  runEffects sets s (handlePhraseSubmit s customPhrase stored) stored

/-- The state of a fresh component before the mount effects run
(initial values of the `useState` declarations, lines 33-55). -/
def freshState : GameState :=
  { currentSetKey := "familySet".data, currentPhraseIndex := 0,
    displayPhrase := [], typingPhrase := [], userInput := [],
    currentIndex := 0, startTime := none, elapsedTime := 0,
    isTimerRunning := false, previousTime := none }

/-- A fresh session: the initial state after the mount effects ran (the
phrase is derived from the active set and the stored previous time for it is
loaded). -/
def initialState (sets : List (List Char × PhraseSet)) (stored : Option Int) : GameState :=
  { refreshPhrase sets freshState with previousTime := stored }

/-- One observable operation of the component: a keystroke, a navigation
click, a set change, a custom-phrase submission (each followed by its effect
cascade), or a timer poll.  The scheduled auto-advance after completion
performs `goToNextPhrase` and is covered by `nextPhrase`. -/
inductive Step (sets : List (List Char × PhraseSet)) : GameState → GameState → Prop
  | key (s : GameState) (char : Char) (now : Nat) : Step sets s (keyStep s char now)
  | nextPhrase (s : GameState) (stored : Option Int) : Step sets s (nextStep sets s stored)
  | prevPhrase (s : GameState) (stored : Option Int) : Step sets s (prevStep sets s stored)
  | setChange (s : GameState) (k : List Char) (stored : Option Int) :
      Step sets s (setChangeStep sets s k stored)
  | submit (s : GameState) (text : List Char) (stored : Option Int) :
      Step sets s (submitStep sets s text stored)
  | tick (s : GameState) (now : Nat) : Step sets s (timerTick s now)

/-- States reachable from a fresh session by any sequence of operations. -/
inductive Reachable (sets : List (List Char × PhraseSet)) : GameState → Prop
  | init (stored : Option Int) : Reachable sets (initialState sets stored)
  | step {s s' : GameState} : Reachable sets s → Step sets s s' → Reachable sets s'

/-- The fixed keyboard layout (lines 90-96): five rows of key labels. -/
def keyboardLayout : List (List Char) :=
  [['1', '2', '3', '4', '5', '6', '7', '8', '9', '0', '-', '='],
   ['q', 'w', 'e', 'r', 't', 'y', 'u', 'i', 'o', 'p', '[', ']'],
   ['a', 's', 'd', 'f', 'g', 'h', 'j', 'k', 'l', ';', Char.ofNat 39],
   ['z', 'x', 'c', 'v', 'b', 'n', 'm', ',', '.', '/'],
   [' ']]

/-- The shift-symbol table (lines 99-104): base key paired with the symbol it
produces under shift.  `Char.ofNat 39` is the apostrophe key, `Char.ofNat 34`
the double quote, `Char.ofNat 123` and `Char.ofNat 125` the braces. -/
def shiftSymbols : List (Char × Char) :=
  [('1', '!'), ('2', '@'), ('3', '#'), ('4', '$'), ('5', '%'),
   ('6', '^'), ('7', '&'), ('8', '*'), ('9', '('), ('0', ')'),
   ('-', '_'), ('=', '+'), (';', ':'), (Char.ofNat 39, Char.ofNat 34), (',', '<'),
   ('.', '>'), ('/', '?'), ('[', Char.ofNat 123), (']', Char.ofNat 125)]

/-- The call `keyboardLayout[rowIndex].indexOf(c)`: index of the first occurrence of
`c` in a row, or `none` for `-1`. -/
def jsIndexOf (row : List Char) (c : Char) : Option Nat :=
  row.findIdx? (fun x => x == c)

/-- The row-major scan of `findKeyPosition`'s first loop (lines 355-360),
with `rowIndex` the index of the first row in `rows`. -/
def findInRows (c : Char) : List (List Char) → Nat → Option (Nat × Nat)
  | [], _ => none
  | row :: rest, rowIndex =>
    match jsIndexOf row c with
    | some keyIndex => some (rowIndex, keyIndex)
    | none => findInRows c rest (rowIndex + 1)

/-- Scan the whole layout for a character, row-major. -/
def findCharInLayout (c : Char) : Option (Nat × Nat) :=
  findInRows c keyboardLayout 0

/-- The second loop of `findKeyPosition` (lines 363-374): walk the
shift-symbol entries; on an entry whose shifted value equals the target,
return the layout position of its base key when that key is present,
otherwise keep scanning the remaining entries. -/
def findShiftBase (char : Char) : List (Char × Char) → Option (Nat × Nat)
  | [] => none
  | (baseKey, shiftSymbol) :: rest =>
    if shiftSymbol == char then
      match findCharInLayout baseKey with
      | some p => some p
      | none => findShiftBase char rest
    else findShiftBase char rest

/-- Function `findKeyPosition` (lines 350-377): look the lowercased character up in
the layout; if absent, resolve it through the shift-symbol table (matched
against the original character). -/
def findKeyPosition (char : Char) : Option (Nat × Nat) :=
  let lowerChar := char.toLower
  match findCharInLayout lowerChar with
  | some p => some p
  | none => findShiftBase char shiftSymbols

/-- All positions of a layout in row-major order, each with its key label. -/
def rowMajorEnum (rows : List (List Char)) : List ((Nat × Nat) × Char) :=
  (rows.enum.map (fun r => r.2.enum.map (fun k => ((r.1, k.1), k.2)))).flatten

/-- First row-major position of a character in a layout. -/
def firstRowMajorPos (rows : List (List Char)) (c : Char) : Option (Nat × Nat) :=
  ((rowMajorEnum rows).find? (fun e => e.2 == c)).map (fun e => e.1)

/-- The Keyboard Locator as the spec describes it (§4.2): a linear scan over
the fixed keyboard layout in row-major order for the first exact (lowercased)
match; if absent, the first shift-table entry whose shifted value equals the
target character, located through its base key; otherwise not found. -/
def specKeyLocator (char : Char) : Option (Nat × Nat) :=
  match firstRowMajorPos keyboardLayout char.toLower with
  | some p => some p
  | none =>
    match shiftSymbols.find? (fun e => e.2 == char) with
    | some e => firstRowMajorPos keyboardLayout e.1
    | none => none

/-- The backward scan of `getCurrentWordInfo` (lines 116-118):
`while (wordStart > 0 && typingPhrase[wordStart - 1] !== " ") wordStart--`.
An out-of-range read yields `undefined`, which differs from a space, so the
scan continues; `p.get? n ≠ some ' '` models the JS condition exactly. -/
def findWordStart (p : List Char) : Nat → Nat
  | 0 => 0
  | n + 1 => if p.get? n ≠ some ' ' then findWordStart p n else n + 1

/-- The forward scan of `getCurrentWordInfo` (lines 121-123), structurally
recursive over the remaining suffix of the phrase:
`while (wordEnd < length && typingPhrase[wordEnd] !== " ") wordEnd++`. -/
def findWordEndAux : List Char → Nat → Nat
  | [], i => i
  | c :: rest, i => if c ≠ ' ' then findWordEndAux rest (i + 1) else i

/-- Position of the end of the current word: the forward scan started at
`i` over the suffix `p.drop i`. -/
def findWordEnd (p : List Char) (i : Nat) : Nat :=
  findWordEndAux (p.drop i) i

/-- Function `getCurrentWordInfo` (lines 107-132): at or past the end of the phrase,
empty results; otherwise the current word delimited by the two scans
(`substring(wordStart, wordEnd)`) and the letters strictly after the cursor
up to the word end (`substring(currentIndex + 1, wordEnd).split("")`). -/
def getCurrentWordInfo (p : List Char) (currentIndex : Nat) : List Char × List Char :=
  if p.length ≤ currentIndex then ([], [])
  else
    let wordStart := findWordStart p currentIndex
    let wordEnd := findWordEnd p currentIndex
    let currentWord := (p.drop wordStart).take (wordEnd - wordStart)
    let remainingLetters := if currentIndex < wordEnd
      then (p.drop (currentIndex + 1)).take (wordEnd - (currentIndex + 1))
      else []
    (currentWord, remainingLetters)

/-- A concrete fresh mid-session state on the phrase "cat", used to evaluate
the theorems on explicit inputs. -/
def demoState : GameState :=
  { currentSetKey := "familySet".data, currentPhraseIndex := 0,
    displayPhrase := "cat".data, typingPhrase := "cat".data, userInput := [],
    currentIndex := 0, startTime := none, elapsedTime := 0,
    isTimerRunning := false, previousTime := none }

/-- A concrete running mid-session state: "cat" with "c" already typed. -/
def demoStateMid : GameState :=
  { currentSetKey := "familySet".data, currentPhraseIndex := 0,
    displayPhrase := "cat".data, typingPhrase := "cat".data, userInput := ['c'],
    currentIndex := 1, startTime := some 5, elapsedTime := 2,
    isTimerRunning := true, previousTime := some 9 }

/-- A completed-session state: "cat" fully typed, cursor at the phrase
length (the 3-second post-completion window). -/
def demoDone : GameState :=
  { currentSetKey := "familySet".data, currentPhraseIndex := 0,
    displayPhrase := "cat".data, typingPhrase := "cat".data, userInput := "cat".data,
    currentIndex := 3, startTime := some 5, elapsedTime := 4,
    isTimerRunning := false, previousTime := none }

/-- A nearly-finished session: "cat" with "ca" typed and the timer running. -/
def demoAlmost : GameState :=
  { currentSetKey := "familySet".data, currentPhraseIndex := 0,
    displayPhrase := "cat".data, typingPhrase := "cat".data, userInput := ['c', 'a'],
    currentIndex := 2, startTime := some 5, elapsedTime := 4,
    isTimerRunning := true, previousTime := some 9 }

/-- The session-reset condition of the spec lifecycle: cursor 0, empty
accumulated input, and the timer cleared. -/
def sessionReset (s : GameState) : Prop :=
  s.currentIndex = 0 ∧ s.userInput = [] ∧ s.startTime = none ∧
  s.elapsedTime = 0 ∧ s.isTimerRunning = false

instance (s : GameState) : Decidable (sessionReset s) := by
  unfold sessionReset
  infer_instance

/-- A sample phrase-set collection used to evaluate the reachability
theorems on concrete states. -/
def sampleSets : List (List Char × PhraseSet) :=
  [("familySet".data, { name := "Family".data, phrases := ["cat".data, "Hi!".data] })]

/-- Row-major enumeration of the rows of a layout, starting at row `r0`. -/
def rowMajorEnumFrom (r0 : Nat) (rows : List (List Char)) : List ((Nat × Nat) × Char) :=
  ((rows.enumFrom r0).map (fun r => r.2.enum.map (fun k => ((r.1, k.1), k.2)))).flatten

example : findKeyPosition '@' = some (0, 1) := by decide

example : findKeyPosition 'T' = some (1, 4) := by decide

example : findKeyPosition '€' = none := by decide

example : getCurrentWordInfo "the cat".data 5 = ("cat".data, ['t']) := by decide

example : getCurrentWordInfo "the cat".data 9 = ([], []) := by decide

example :
    keyStep
      { currentSetKey := [], currentPhraseIndex := 0, displayPhrase := ['H', 'i'],
        typingPhrase := ['H', 'i'], userInput := [], currentIndex := 0,
        startTime := none, elapsedTime := 0, isTimerRunning := false,
        previousTime := none } 'h' 5 =
      { currentSetKey := [], currentPhraseIndex := 0, displayPhrase := ['H', 'i'],
        typingPhrase := ['H', 'i'], userInput := ['H'], currentIndex := 1,
        startTime := some 5, elapsedTime := 0, isTimerRunning := true,
        previousTime := none } := by decide

/-- C1: with the cursor in range (the expected character exists), a keystroke
is accepted exactly when its lowercase form equals the lowercase of the
expected phrase character; on acceptance the phrase's original-case character
is appended to `userInput` and the cursor advances by exactly 1, and on
rejection both are unchanged. -/
theorem keyMatcher_accepts_iff (s : GameState) (c : Char) (now : Nat) (ec : Char)
    (hget : s.typingPhrase.get? s.currentIndex = some ec) :
    (c.toLower = ec.toLower →
       (keyStep s c now).userInput = s.userInput ++ [ec] ∧
       (keyStep s c now).currentIndex = s.currentIndex + 1) ∧
    (c.toLower ≠ ec.toLower →
       (keyStep s c now).userInput = s.userInput ∧
       (keyStep s c now).currentIndex = s.currentIndex) := by
  constructor
  · intro hm
    unfold keyStep handleKeyPress
    by_cases h0 : s.currentIndex = 0 ∧ startTimeFalsy s.startTime <;>
      [rw [if_pos h0]; rw [if_neg h0]] <;>
    dsimp only <;>
    rw [hget] <;>
    simp only [hm, if_pos rfl] <;>
    by_cases hl : s.currentIndex + 1 = s.typingPhrase.length <;>
      first
      | (rw [if_pos hl]; exact ⟨rfl, rfl⟩)
      | (rw [if_neg hl]; exact ⟨rfl, rfl⟩)
  · intro hm
    unfold keyStep handleKeyPress
    by_cases h0 : s.currentIndex = 0 ∧ startTimeFalsy s.startTime <;>
      [rw [if_pos h0]; rw [if_neg h0]] <;>
    dsimp only <;>
    rw [hget] <;>
    simp [hm]

/-- Witness for C1 at the fresh "cat" state and the keystroke c. -/
theorem keyMatcher_accepts_iff_witness :
    (keyStep demoState 'c' 5).userInput = demoState.userInput ++ ['c'] ∧
    (keyStep demoState 'c' 5).currentIndex = demoState.currentIndex + 1 :=
  (keyMatcher_accepts_iff demoState 'c' 5 'c' (by decide)).1 (by decide)

/-- C2 counterexample: at the fresh "cat" state the keystroke x does not
match the expected c, yet handling it starts the timer — `startTime` and the
timer-running flag change, so the session state is not left unchanged and the
timer starts on a rejected keystroke. -/
theorem rejected_first_key_changes_state :
    ('x' : Char).toLower ≠ ('c' : Char).toLower ∧
    demoState.typingPhrase.get? demoState.currentIndex = some 'c' ∧
    demoState.isTimerRunning = false ∧ demoState.startTime = none ∧
    (keyStep demoState 'x' 5).isTimerRunning = true ∧
    (keyStep demoState 'x' 5).startTime = some 5 := by decide

/-- C2 amended: a rejected keystroke leaves cursor, input, elapsed time,
previous time and phrase unchanged, but when the cursor is 0 and `startTime`
is unset the handler has already started the timer (set `startTime` and the
running flag) before the match test; in every other case `startTime` and the
flag are also unchanged. -/
theorem rejected_key_state_change (s : GameState) (c : Char) (now : Nat) (ec : Char)
    (hget : s.typingPhrase.get? s.currentIndex = some ec)
    (hm : c.toLower ≠ ec.toLower) :
    (keyStep s c now).currentIndex = s.currentIndex ∧
    (keyStep s c now).userInput = s.userInput ∧
    (keyStep s c now).elapsedTime = s.elapsedTime ∧
    (keyStep s c now).previousTime = s.previousTime ∧
    (keyStep s c now).typingPhrase = s.typingPhrase ∧
    (s.currentIndex = 0 ∧ startTimeFalsy s.startTime →
      (keyStep s c now).startTime = some now ∧ (keyStep s c now).isTimerRunning = true) ∧
    (¬(s.currentIndex = 0 ∧ startTimeFalsy s.startTime) →
      (keyStep s c now).startTime = s.startTime ∧
      (keyStep s c now).isTimerRunning = s.isTimerRunning) := by
  unfold keyStep handleKeyPress
  by_cases h0 : s.currentIndex = 0 ∧ startTimeFalsy s.startTime <;>
    [rw [if_pos h0]; rw [if_neg h0]] <;>
  dsimp only <;>
  rw [hget] <;>
  simp [hm, h0]

/-- Witness for the amended C2 at a running mid-session state and the
rejected keystroke z. -/
theorem rejected_key_state_change_witness :
    (keyStep demoStateMid 'z' 7).currentIndex = demoStateMid.currentIndex ∧
    (keyStep demoStateMid 'z' 7).userInput = demoStateMid.userInput ∧
    (keyStep demoStateMid 'z' 7).elapsedTime = demoStateMid.elapsedTime ∧
    (keyStep demoStateMid 'z' 7).previousTime = demoStateMid.previousTime ∧
    (keyStep demoStateMid 'z' 7).typingPhrase = demoStateMid.typingPhrase ∧
    (demoStateMid.currentIndex = 0 ∧ startTimeFalsy demoStateMid.startTime →
      (keyStep demoStateMid 'z' 7).startTime = some 7 ∧
      (keyStep demoStateMid 'z' 7).isTimerRunning = true) ∧
    (¬(demoStateMid.currentIndex = 0 ∧ startTimeFalsy demoStateMid.startTime) →
      (keyStep demoStateMid 'z' 7).startTime = demoStateMid.startTime ∧
      (keyStep demoStateMid 'z' 7).isTimerRunning = demoStateMid.isTimerRunning) :=
  rejected_key_state_change demoStateMid 'z' 7 'a' (by decide) (by decide)

/-- C10 counterexample: in the completed "cat" state (cursor 3 = length) a
keystroke makes the handler read `typingPhrase[3]`, which is `undefined`, and
`undefined.toLowerCase()` throws — modelled as `Except.error`.  The handler
neither avoids the out-of-bounds read nor returns normally. -/
theorem key_at_end_reads_out_of_bounds :
    demoDone.typingPhrase.get? demoDone.currentIndex = none ∧
    handleKeyPress demoDone 'x' 7 = Except.error demoDone := by
  constructor
  · decide
  · rfl

/-- C10 amended: a keystroke handled with the cursor at or past the phrase
length reads `typingPhrase[cursor]` out of bounds and the lowercase
comparison throws a `TypeError`; cursor, input, phrase, elapsed time and
previous time are unchanged, and the only effect applied before the throw is
the timer start in the cursor-0-with-unset-`startTime` case (an empty
phrase); otherwise the state is exactly unchanged. -/
theorem key_past_end_throws (s : GameState) (c : Char) (now : Nat)
    (h : s.typingPhrase.length ≤ s.currentIndex) :
    ∃ e, handleKeyPress s c now = Except.error e ∧
      e.currentIndex = s.currentIndex ∧ e.userInput = s.userInput ∧
      e.typingPhrase = s.typingPhrase ∧ e.elapsedTime = s.elapsedTime ∧
      e.previousTime = s.previousTime ∧
      (s.currentIndex = 0 ∧ startTimeFalsy s.startTime →
        e.startTime = some now ∧ e.isTimerRunning = true) ∧
      (¬(s.currentIndex = 0 ∧ startTimeFalsy s.startTime) → e = s) := by
  have hget : s.typingPhrase.get? s.currentIndex = none := List.get?_eq_none.mpr h
  unfold handleKeyPress
  by_cases h0 : s.currentIndex = 0 ∧ startTimeFalsy s.startTime <;>
    [rw [if_pos h0]; rw [if_neg h0]] <;>
  dsimp only <;>
  rw [hget] <;>
  exact ⟨_, rfl, by simp [h0]⟩

/-- Witness for the amended C10 at an empty-phrase fresh state. -/
theorem key_past_end_throws_witness :
    ∃ e, handleKeyPress freshState 'x' 7 = Except.error e ∧
      e.currentIndex = freshState.currentIndex ∧ e.userInput = freshState.userInput ∧
      e.typingPhrase = freshState.typingPhrase ∧ e.elapsedTime = freshState.elapsedTime ∧
      e.previousTime = freshState.previousTime ∧
      (freshState.currentIndex = 0 ∧ startTimeFalsy freshState.startTime →
        e.startTime = some 7 ∧ e.isTimerRunning = true) ∧
      (¬(freshState.currentIndex = 0 ∧ startTimeFalsy freshState.startTime) →
        e = freshState) :=
  key_past_end_throws freshState 'x' 7 (by decide)

/-- The phrase-refreshing effect only rewrites the display and typing
phrases; every other field is untouched. -/
theorem refreshPhrase_fields (sets : List (List Char × PhraseSet)) (s : GameState) :
    (refreshPhrase sets s).currentIndex = s.currentIndex ∧
    (refreshPhrase sets s).userInput = s.userInput ∧
    (refreshPhrase sets s).startTime = s.startTime ∧
    (refreshPhrase sets s).elapsedTime = s.elapsedTime ∧
    (refreshPhrase sets s).isTimerRunning = s.isTimerRunning ∧
    (refreshPhrase sets s).currentPhraseIndex = s.currentPhraseIndex ∧
    (refreshPhrase sets s).currentSetKey = s.currentSetKey ∧
    (refreshPhrase sets s).previousTime = s.previousTime := by
  unfold refreshPhrase
  split
  · split
    · split <;> exact ⟨rfl, rfl, rfl, rfl, rfl, rfl, rfl, rfl⟩
    · exact ⟨rfl, rfl, rfl, rfl, rfl, rfl, rfl, rfl⟩
  · exact ⟨rfl, rfl, rfl, rfl, rfl, rfl, rfl, rfl⟩

/-- The post-handler effect cascade only rewrites the display and typing
phrases and `previousTime`; cursor, input, timer fields and the set/index
are those the handler produced. -/
theorem runEffects_fields (sets : List (List Char × PhraseSet)) (s0 s : GameState)
    (stored : Option Int) :
    (runEffects sets s0 s stored).currentIndex = s.currentIndex ∧
    (runEffects sets s0 s stored).userInput = s.userInput ∧
    (runEffects sets s0 s stored).startTime = s.startTime ∧
    (runEffects sets s0 s stored).elapsedTime = s.elapsedTime ∧
    (runEffects sets s0 s stored).isTimerRunning = s.isTimerRunning ∧
    (runEffects sets s0 s stored).currentPhraseIndex = s.currentPhraseIndex ∧
    (runEffects sets s0 s stored).currentSetKey = s.currentSetKey := by
  have h := refreshPhrase_fields sets s
  unfold runEffects
  dsimp only
  split
  · split
    · exact ⟨h.1, h.2.1, h.2.2.1, h.2.2.2.1, h.2.2.2.2.1, h.2.2.2.2.2.1, h.2.2.2.2.2.2.1⟩
    · exact ⟨h.1, h.2.1, h.2.2.1, h.2.2.2.1, h.2.2.2.2.1, h.2.2.2.2.2.1, h.2.2.2.2.2.2.1⟩
  · split
    · exact ⟨rfl, rfl, rfl, rfl, rfl, rfl, rfl⟩
    · exact ⟨rfl, rfl, rfl, rfl, rfl, rfl, rfl⟩

/-- C4: with the current set resolved, nonempty, and the index in range,
next() moves the phrase index to (i+1) mod n and previous() to (i-1+n) mod n;
in particular next() wraps from the last index to 0 and previous() wraps
from 0 to the last index. -/
theorem navigator_wraparound (sets : List (List Char × PhraseSet)) (s : GameState)
    (set : PhraseSet) (stored : Option Int)
    (hset : sets.lookup s.currentSetKey = some set)
    (hn : 0 < set.phrases.length) (hi : s.currentPhraseIndex < set.phrases.length) :
    (nextStep sets s stored).currentPhraseIndex =
      (s.currentPhraseIndex + 1) % set.phrases.length ∧
    (prevStep sets s stored).currentPhraseIndex =
      (s.currentPhraseIndex + set.phrases.length - 1) % set.phrases.length ∧
    (s.currentPhraseIndex = set.phrases.length - 1 →
      (nextStep sets s stored).currentPhraseIndex = 0) ∧
    (s.currentPhraseIndex = 0 →
      (prevStep sets s stored).currentPhraseIndex = set.phrases.length - 1) := by
  have hnext : (nextStep sets s stored).currentPhraseIndex =
      (s.currentPhraseIndex + 1) % set.phrases.length := by
    unfold nextStep
    rw [(runEffects_fields sets s (goToNextPhrase sets s) stored).2.2.2.2.2.1]
    unfold goToNextPhrase
    rw [hset]
  have hprev : (prevStep sets s stored).currentPhraseIndex =
      (s.currentPhraseIndex + set.phrases.length - 1) % set.phrases.length := by
    unfold prevStep
    rw [(runEffects_fields sets s (goToPrevPhrase sets s) stored).2.2.2.2.2.1]
    unfold goToPrevPhrase
    rw [hset]
  refine ⟨hnext, hprev, fun hlast => ?_, fun h0 => ?_⟩
  · rw [hnext, hlast, Nat.sub_add_cancel hn, Nat.mod_self]
  · rw [hprev, h0, Nat.zero_add, Nat.mod_eq_of_lt (Nat.sub_lt hn Nat.one_pos)]

/-- Witness for C4 on a one-set collection of two phrases, at index 0. -/
theorem navigator_wraparound_witness :
    (nextStep [("familySet".data,
        { name := "Family".data, phrases := ["cat".data, "Hi!".data] })]
      demoState none).currentPhraseIndex = (demoState.currentPhraseIndex + 1) % 2 ∧
    (prevStep [("familySet".data,
        { name := "Family".data, phrases := ["cat".data, "Hi!".data] })]
      demoState none).currentPhraseIndex = (demoState.currentPhraseIndex + 2 - 1) % 2 ∧
    (demoState.currentPhraseIndex = 2 - 1 →
      (nextStep [("familySet".data,
          { name := "Family".data, phrases := ["cat".data, "Hi!".data] })]
        demoState none).currentPhraseIndex = 0) ∧
    (demoState.currentPhraseIndex = 0 →
      (prevStep [("familySet".data,
          { name := "Family".data, phrases := ["cat".data, "Hi!".data] })]
        demoState none).currentPhraseIndex = 2 - 1) :=
  navigator_wraparound _ demoState
    { name := "Family".data, phrases := ["cat".data, "Hi!".data] } none
    (by decide) (by decide) (by decide)

/-- C5: set change resets the session unconditionally; next/previous
navigation resets it whenever the current set key resolves (the only
situation in which the handlers act); submitting a custom phrase that is
nonempty after trimming resets it. -/
theorem operations_reset_session (sets : List (List Char × PhraseSet)) (s : GameState)
    (set : PhraseSet) (k text : List Char) (stored : Option Int) :
    sessionReset (setChangeStep sets s k stored) ∧
    (sets.lookup s.currentSetKey = some set → sessionReset (nextStep sets s stored)) ∧
    (sets.lookup s.currentSetKey = some set → sessionReset (prevStep sets s stored)) ∧
    (jsTrim text ≠ [] → sessionReset (submitStep sets s text stored)) := by
  refine ⟨?_, fun hset => ?_, fun hset => ?_, fun htext => ?_⟩
  · have h := runEffects_fields sets s (handleSetChange s k) stored
    exact ⟨h.1, h.2.1, h.2.2.1, h.2.2.2.1, h.2.2.2.2.1⟩
  · have h := runEffects_fields sets s (goToNextPhrase sets s) stored
    refine ⟨h.1.trans ?_, (h.2.1).trans ?_, (h.2.2.1).trans ?_,
            (h.2.2.2.1).trans ?_, (h.2.2.2.2.1).trans ?_⟩ <;>
      (unfold goToNextPhrase; rw [hset])
  · have h := runEffects_fields sets s (goToPrevPhrase sets s) stored
    refine ⟨h.1.trans ?_, (h.2.1).trans ?_, (h.2.2.1).trans ?_,
            (h.2.2.2.1).trans ?_, (h.2.2.2.2.1).trans ?_⟩ <;>
      (unfold goToPrevPhrase; rw [hset])
  · have h := runEffects_fields sets s (handlePhraseSubmit s text stored) stored
    refine ⟨h.1.trans ?_, (h.2.1).trans ?_, (h.2.2.1).trans ?_,
            (h.2.2.2.1).trans ?_, (h.2.2.2.2.1).trans ?_⟩ <;>
      (unfold handlePhraseSubmit; rw [if_pos htext])

/-- Witness for C5 on a one-set collection, at a running mid-session state. -/
theorem operations_reset_session_witness :
    sessionReset (setChangeStep [("familySet".data,
        { name := "Family".data, phrases := ["cat".data, "Hi!".data] })]
      demoStateMid "otherSet".data none) ∧
    sessionReset (nextStep [("familySet".data,
        { name := "Family".data, phrases := ["cat".data, "Hi!".data] })]
      demoStateMid none) ∧
    sessionReset (prevStep [("familySet".data,
        { name := "Family".data, phrases := ["cat".data, "Hi!".data] })]
      demoStateMid none) ∧
    sessionReset (submitStep [("familySet".data,
        { name := "Family".data, phrases := ["cat".data, "Hi!".data] })]
      demoStateMid " dog ".data none) := by
  have h := operations_reset_session
    [("familySet".data, { name := "Family".data, phrases := ["cat".data, "Hi!".data] })]
    demoStateMid { name := "Family".data, phrases := ["cat".data, "Hi!".data] }
    "otherSet".data " dog ".data none
  exact ⟨h.1, h.2.1 (by decide), h.2.2.1 (by decide), h.2.2.2 (by decide)⟩

/-- C8: when an accepted keystroke takes the cursor to the phrase length, the
handler stops the timer, persists the elapsed time under the key
`typingTime-` followed by the typing phrase, computes the best-time
difference as previous minus current exactly when a previous time exists,
and schedules exactly one automatic advance after 3000 ms. -/
theorem completion_effects (s : GameState) (c : Char) (now : Nat) (ec : Char)
    (hget : s.typingPhrase.get? s.currentIndex = some ec)
    (hm : c.toLower = ec.toLower)
    (hlen : s.currentIndex + 1 = s.typingPhrase.length) :
    ∃ s' eff, handleKeyPress s c now = Except.ok (s', eff) ∧
      s'.isTimerRunning = false ∧
      s'.currentIndex = s.typingPhrase.length ∧
      eff.persisted = some ("typingTime-".data ++ s.typingPhrase, s.elapsedTime) ∧
      eff.timeDifference = s.previousTime.map (fun p => p - s.elapsedTime) ∧
      eff.scheduledAdvanceMs = some 3000 := by
  unfold handleKeyPress
  by_cases h0 : s.currentIndex = 0 ∧ startTimeFalsy s.startTime <;>
    [rw [if_pos h0]; rw [if_neg h0]] <;>
  dsimp only <;>
  rw [hget] <;>
  simp only [hm, if_pos rfl] <;>
  rw [if_pos hlen] <;>
  exact ⟨_, _, rfl, rfl, hlen, rfl, rfl, rfl⟩

/-- Witness for C8: typing the final t of "cat". -/
theorem completion_effects_witness :
    ∃ s' eff, handleKeyPress demoAlmost 't' 9 = Except.ok (s', eff) ∧
      s'.isTimerRunning = false ∧
      s'.currentIndex = demoAlmost.typingPhrase.length ∧
      eff.persisted = some ("typingTime-".data ++ demoAlmost.typingPhrase,
        demoAlmost.elapsedTime) ∧
      eff.timeDifference = demoAlmost.previousTime.map
        (fun p => p - demoAlmost.elapsedTime) ∧
      eff.scheduledAdvanceMs = some 3000 :=
  completion_effects demoAlmost 't' 9 't' (by decide) (by decide) (by decide)

/-- One keystroke either leaves cursor and input unchanged, or the expected
character exists and is appended with the cursor advancing by one; the
typing phrase is never changed by a keystroke. -/
theorem keyStep_characterization (s : GameState) (c : Char) (now : Nat) :
    (keyStep s c now).typingPhrase = s.typingPhrase ∧
    (((keyStep s c now).currentIndex = s.currentIndex ∧
      (keyStep s c now).userInput = s.userInput) ∨
     (∃ ec, s.typingPhrase.get? s.currentIndex = some ec ∧
        (keyStep s c now).currentIndex = s.currentIndex + 1 ∧
        (keyStep s c now).userInput = s.userInput ++ [ec])) := by
  unfold keyStep handleKeyPress
  by_cases h0 : s.currentIndex = 0 ∧ startTimeFalsy s.startTime <;>
    [rw [if_pos h0]; rw [if_neg h0]] <;>
  dsimp only <;>
  cases hget : s.typingPhrase.get? s.currentIndex with
  | none => exact ⟨rfl, Or.inl ⟨rfl, rfl⟩⟩
  | some ec =>
    by_cases hm : c.toLower = ec.toLower
    · simp only [hm, if_pos rfl]
      by_cases hl : s.currentIndex + 1 = s.typingPhrase.length <;>
        [rw [if_pos hl]; rw [if_neg hl]] <;>
        exact ⟨rfl, Or.inr ⟨ec, rfl, rfl, rfl⟩⟩
    · simp [if_neg hm]

/-- Rerunning the effects on an unchanged state does nothing. -/
theorem runEffects_self (sets : List (List Char × PhraseSet)) (s : GameState)
    (stored : Option Int) : runEffects sets s s stored = s := by
  simp [runEffects]

/-- Next-phrase navigation either does nothing (unresolved set key) or
resets cursor and accumulated input. -/
theorem nextStep_reset_or_id (sets : List (List Char × PhraseSet)) (s : GameState)
    (stored : Option Int) :
    nextStep sets s stored = s ∨
    ((nextStep sets s stored).currentIndex = 0 ∧
     (nextStep sets s stored).userInput = []) := by
  cases hset : sets.lookup s.currentSetKey with
  | none =>
    left
    have hid : goToNextPhrase sets s = s := by unfold goToNextPhrase; rw [hset]
    unfold nextStep
    rw [hid, runEffects_self]
  | some set =>
    right
    have h := runEffects_fields sets s (goToNextPhrase sets s) stored
    unfold nextStep
    refine ⟨h.1.trans ?_, h.2.1.trans ?_⟩ <;> (unfold goToNextPhrase; rw [hset])

/-- Previous-phrase navigation either does nothing or resets cursor and
input. -/
theorem prevStep_reset_or_id (sets : List (List Char × PhraseSet)) (s : GameState)
    (stored : Option Int) :
    prevStep sets s stored = s ∨
    ((prevStep sets s stored).currentIndex = 0 ∧
     (prevStep sets s stored).userInput = []) := by
  cases hset : sets.lookup s.currentSetKey with
  | none =>
    left
    have hid : goToPrevPhrase sets s = s := by unfold goToPrevPhrase; rw [hset]
    unfold prevStep
    rw [hid, runEffects_self]
  | some set =>
    right
    have h := runEffects_fields sets s (goToPrevPhrase sets s) stored
    unfold prevStep
    refine ⟨h.1.trans ?_, h.2.1.trans ?_⟩ <;> (unfold goToPrevPhrase; rw [hset])

/-- A set change always resets cursor and input. -/
theorem setChangeStep_reset (sets : List (List Char × PhraseSet)) (s : GameState)
    (k : List Char) (stored : Option Int) :
    (setChangeStep sets s k stored).currentIndex = 0 ∧
    (setChangeStep sets s k stored).userInput = [] := by
  have h := runEffects_fields sets s (handleSetChange s k) stored
  exact ⟨h.1, h.2.1⟩

/-- A custom-phrase submission either does nothing (blank text) or resets
cursor and input. -/
theorem submitStep_reset_or_id (sets : List (List Char × PhraseSet)) (s : GameState)
    (text : List Char) (stored : Option Int) :
    submitStep sets s text stored = s ∨
    ((submitStep sets s text stored).currentIndex = 0 ∧
     (submitStep sets s text stored).userInput = []) := by
  by_cases ht : jsTrim text ≠ []
  · right
    have h := runEffects_fields sets s (handlePhraseSubmit s text stored) stored
    unfold submitStep
    refine ⟨h.1.trans ?_, h.2.1.trans ?_⟩ <;> (unfold handlePhraseSubmit; rw [if_pos ht])
  · left
    have hid : handlePhraseSubmit s text stored = s := by
      unfold handlePhraseSubmit; rw [if_neg ht]
    unfold submitStep
    rw [hid, runEffects_self]

/-- A timer poll only rewrites the elapsed time. -/
theorem timerTick_fields (s : GameState) (now : Nat) :
    (timerTick s now).currentIndex = s.currentIndex ∧
    (timerTick s now).userInput = s.userInput ∧
    (timerTick s now).typingPhrase = s.typingPhrase := by
  unfold timerTick
  split
  · split <;> exact ⟨rfl, rfl, rfl⟩
  · exact ⟨rfl, rfl, rfl⟩

/-- A fresh session starts with cursor 0 and empty input. -/
theorem initialState_fields (sets : List (List Char × PhraseSet)) (stored : Option Int) :
    (initialState sets stored).currentIndex = 0 ∧
    (initialState sets stored).userInput = [] := by
  have h := refreshPhrase_fields sets freshState
  exact ⟨h.1, h.2.1⟩

/-- C3: in every reachable state the cursor is at most the typing phrase
length (and, being a `Nat`, at least 0); and every single operation either
keeps the cursor, advances it by exactly 1, or resets it to 0 — it is never
decremented to any other value. -/
theorem cursor_stays_in_range (sets : List (List Char × PhraseSet)) :
    (∀ s, Reachable sets s → s.currentIndex ≤ s.typingPhrase.length) ∧
    (∀ s s', Step sets s s' →
      s'.currentIndex = s.currentIndex ∨ s'.currentIndex = s.currentIndex + 1 ∨
      s'.currentIndex = 0) := by
  have hstep : ∀ s s', Step sets s s' → s.currentIndex ≤ s.typingPhrase.length →
      s'.currentIndex ≤ s'.typingPhrase.length := by
    intro s s' hst hinv
    cases hst with
    | key c now =>
      obtain ⟨hp, hcase⟩ := keyStep_characterization s c now
      rcases hcase with ⟨hidx, _⟩ | ⟨ec, hget, hidx, _⟩
      · rw [hp, hidx]; exact hinv
      · have hlt : s.currentIndex < s.typingPhrase.length := by
          rcases List.get?_eq_some.mp hget with ⟨hl, _⟩
          exact hl
        rw [hp, hidx]
        exact hlt
    | nextPhrase stored =>
      rcases nextStep_reset_or_id sets s stored with h | h
      · rw [h]; exact hinv
      · rw [h.1]; exact Nat.zero_le _
    | prevPhrase stored =>
      rcases prevStep_reset_or_id sets s stored with h | h
      · rw [h]; exact hinv
      · rw [h.1]; exact Nat.zero_le _
    | setChange k stored =>
      rw [(setChangeStep_reset sets s k stored).1]; exact Nat.zero_le _
    | submit text stored =>
      rcases submitStep_reset_or_id sets s text stored with h | h
      · rw [h]; exact hinv
      · rw [h.1]; exact Nat.zero_le _
    | tick now =>
      rw [(timerTick_fields s now).1, (timerTick_fields s now).2.2]; exact hinv
  refine ⟨?_, ?_⟩
  · intro s hr
    induction hr with
    | init stored =>
      rw [(initialState_fields sets stored).1]
      exact Nat.zero_le _
    | step hr hst ih => exact hstep _ _ hst ih
  · intro s s' hst
    cases hst with
    | key c now =>
      rcases (keyStep_characterization s c now).2 with ⟨hidx, _⟩ | ⟨_, _, hidx, _⟩
      · exact Or.inl hidx
      · exact Or.inr (Or.inl hidx)
    | nextPhrase stored =>
      rcases nextStep_reset_or_id sets s stored with h | h
      · exact Or.inl (by rw [h])
      · exact Or.inr (Or.inr h.1)
    | prevPhrase stored =>
      rcases prevStep_reset_or_id sets s stored with h | h
      · exact Or.inl (by rw [h])
      · exact Or.inr (Or.inr h.1)
    | setChange k stored =>
      exact Or.inr (Or.inr (setChangeStep_reset sets s k stored).1)
    | submit text stored =>
      rcases submitStep_reset_or_id sets s text stored with h | h
      · exact Or.inl (by rw [h])
      · exact Or.inr (Or.inr h.1)
    | tick now => exact Or.inl (timerTick_fields s now).1

/-- Witness for C3: the bound at a fresh session and the step delta for a
concrete keystroke. -/
theorem cursor_stays_in_range_witness :
    (initialState sampleSets none).currentIndex ≤
      (initialState sampleSets none).typingPhrase.length ∧
    ((keyStep demoState 'c' 5).currentIndex = demoState.currentIndex ∨
     (keyStep demoState 'c' 5).currentIndex = demoState.currentIndex + 1 ∨
     (keyStep demoState 'c' 5).currentIndex = 0) :=
  ⟨(cursor_stays_in_range sampleSets).1 _ (Reachable.init none),
   (cursor_stays_in_range sampleSets).2 _ _ (Step.key demoState 'c' 5)⟩

/-- C9: in every reachable state the accumulated input is exactly the
already-typed part of the typing phrase — the length-cursor first part. -/
theorem userInput_matches_typed_part (sets : List (List Char × PhraseSet)) :
    ∀ s, Reachable sets s → s.userInput = s.typingPhrase.take s.currentIndex := by
  intro s hr
  induction hr with
  | init stored =>
    have h := initialState_fields sets stored
    rw [h.1, h.2]
    simp
  | step hr hst ih =>
    rename_i s0 s1
    cases hst with
    | key c now =>
      obtain ⟨hp, hcase⟩ := keyStep_characterization s0 c now
      rcases hcase with ⟨hidx, hinp⟩ | ⟨ec, hget, hidx, hinp⟩
      · rw [hp, hidx, hinp]; exact ih
      · rw [hp, hidx, hinp, ih, List.take_succ, ← List.get?_eq_getElem?, hget]
        rfl
    | nextPhrase stored =>
      rcases nextStep_reset_or_id sets s0 stored with h | h
      · rw [h]; exact ih
      · rw [h.1, h.2]; simp
    | prevPhrase stored =>
      rcases prevStep_reset_or_id sets s0 stored with h | h
      · rw [h]; exact ih
      · rw [h.1, h.2]; simp
    | setChange k stored =>
      have h := setChangeStep_reset sets s0 k stored
      rw [h.1, h.2]; simp
    | submit text stored =>
      rcases submitStep_reset_or_id sets s0 text stored with h | h
      · rw [h]; exact ih
      · rw [h.1, h.2]; simp
    | tick now =>
      have h := timerTick_fields s0 now
      rw [h.1, h.2.1, h.2.2]; exact ih

/-- Witness for C9 at a fresh session on the sample sets. -/
theorem userInput_matches_typed_part_witness :
    (initialState sampleSets none).userInput =
      (initialState sampleSets none).typingPhrase.take
        (initialState sampleSets none).currentIndex :=
  userInput_matches_typed_part sampleSets _ (Reachable.init none)

/-- The backward scan never moves the word start past the cursor. -/
theorem findWordStart_le (p : List Char) (i : Nat) : findWordStart p i ≤ i := by
  induction i with
  | zero => exact Nat.le_refl 0
  | succ n ih =>
    unfold findWordStart
    split
    · exact ih.trans (Nat.le_succ n)
    · exact Nat.le_refl _

/-- The backward scan stops at the phrase start or just after a space. -/
theorem findWordStart_boundary (p : List Char) (i : Nat) :
    findWordStart p i = 0 ∨ p.get? (findWordStart p i - 1) = some ' ' := by
  induction i with
  | zero => exact Or.inl rfl
  | succ n ih =>
    unfold findWordStart
    split
    · exact ih
    · rename_i h
      rw [not_ne_iff] at h
      exact Or.inr (by simpa using h)

/-- No character strictly between the found word start and the cursor is a
space. -/
theorem findWordStart_nospace (p : List Char) (i : Nat) :
    ∀ j, findWordStart p i ≤ j → j < i → p.get? j ≠ some ' ' := by
  induction i with
  | zero => exact fun j _ h2 => absurd h2 (Nat.not_lt_zero j)
  | succ n ih =>
    intro j h1 h2
    unfold findWordStart at h1
    by_cases hc : p.get? n ≠ some ' '
    · rw [if_pos hc] at h1
      rcases Nat.lt_succ_iff_lt_or_eq.mp h2 with h | h
      · exact ih j h1 h
      · exact h ▸ hc
    · rw [if_neg hc] at h1
      omega

/-- Full characterization of the forward scan, by induction on the remaining
suffix of the phrase. -/
theorem findWordEndAux_spec (p : List Char) :
    ∀ l i, p.drop i = l → i ≤ p.length →
      i ≤ findWordEndAux l i ∧
      findWordEndAux l i ≤ p.length ∧
      (findWordEndAux l i = p.length ∨ p.get? (findWordEndAux l i) = some ' ') ∧
      (∀ j, i ≤ j → j < findWordEndAux l i → p.get? j ≠ some ' ') := by
  intro l
  induction l with
  | nil =>
    intro i hd hi
    have hlen : p.length ≤ i := by
      have := congrArg List.length hd
      simp only [List.length_drop, List.length_nil] at this
      omega
    unfold findWordEndAux
    exact ⟨Nat.le_refl i, hi, Or.inl (Nat.le_antisymm hi hlen),
           fun j h1 h2 => absurd (Nat.lt_of_le_of_lt h1 h2) (Nat.lt_irrefl i)⟩
  | cons c rest ih =>
    intro i hd hi
    have hget : p.get? i = some c := by
      have h0 : (p.drop i).get? 0 = some c := by rw [hd]; rfl
      rwa [List.get?_drop, Nat.add_zero] at h0
    have hlt : i < p.length := by
      rcases List.get?_eq_some.mp hget with ⟨h, _⟩
      exact h
    have hrest : p.drop (i + 1) = rest := by
      have h1 : (p.drop i).tail = rest := by rw [hd]; rfl
      rwa [List.tail_drop] at h1
    unfold findWordEndAux
    by_cases hc : c ≠ ' '
    · rw [if_pos hc]
      obtain ⟨ha, hb, hcc, hdd⟩ := ih (i + 1) hrest hlt
      refine ⟨(Nat.le_succ i).trans ha, hb, hcc, fun j h1 h2 => ?_⟩
      rcases Nat.lt_or_ge j (i + 1) with h | h
      · have : j = i := by omega
        subst this
        rw [hget]
        intro hcon
        exact hc (Option.some.inj hcon)
      · exact hdd j h h2
    · rw [if_neg hc]
      rw [not_ne_iff] at hc
      subst hc
      exact ⟨Nat.le_refl i, hi, Or.inr hget,
             fun j h1 h2 => absurd (Nat.lt_of_le_of_lt h1 h2) (Nat.lt_irrefl i)⟩

/-- Characterization of `findWordEnd` for an in-range cursor. -/
theorem findWordEnd_spec (p : List Char) (i : Nat) (hi : i ≤ p.length) :
    i ≤ findWordEnd p i ∧
    findWordEnd p i ≤ p.length ∧
    (findWordEnd p i = p.length ∨ p.get? (findWordEnd p i) = some ' ') ∧
    (∀ j, i ≤ j → j < findWordEnd p i → p.get? j ≠ some ' ') :=
  findWordEndAux_spec p (p.drop i) i rfl hi

/-- A space cannot occur in a window of the phrase on which the pointwise
no-space property holds. -/
theorem space_not_mem_window (p : List Char) (a b : Nat)
    (h : ∀ j, a ≤ j → j < b → p.get? j ≠ some ' ') :
    ' ' ∉ (p.drop a).take (b - a) := by
  intro hmem
  rcases List.mem_iff_get?.mp hmem with ⟨n, hn⟩
  have hlen : n < ((p.drop a).take (b - a)).length := by
    rcases List.get?_eq_some.mp hn with ⟨h1, _⟩
    exact h1
  have hnba : n < b - a := Nat.lt_of_lt_of_le hlen (by simpa using List.length_take_le _ _)
  rw [List.get?_take hnba, List.get?_drop] at hn
  exact h (a + n) (Nat.le_add_right a n) (by omega) hn

/-- C7 counterexample: on the phrase "cat" with cursor 0 every character of
the current word is still untyped, yet the scanner's remaining-letters list
is only the characters strictly after the cursor. -/
theorem word_scanner_cex :
    (getCurrentWordInfo ['c', 'a', 't'] 0).1 = ['c', 'a', 't'] ∧
    (getCurrentWordInfo ['c', 'a', 't'] 0).2 = ['a', 't'] ∧
    (getCurrentWordInfo ['c', 'a', 't'] 0).2 ≠ ['c', 'a', 't'] := by decide

/-- C7 amended: past the phrase end the scanner returns empty results; for an
in-range cursor the word start is found by scanning backward to the preceding
space (or phrase start), the word end by scanning forward to the next space
(or phrase end), the current word is that window, and the remaining-letters
list holds the not-yet-typed characters of the current word strictly after
the cursor — it excludes the character at the cursor itself. -/
theorem word_scanner_characterization (p : List Char) (i : Nat) :
    (p.length ≤ i → getCurrentWordInfo p i = ([], [])) ∧
    (i < p.length →
      findWordStart p i ≤ i ∧
      (findWordStart p i = 0 ∨ p.get? (findWordStart p i - 1) = some ' ') ∧
      ' ' ∉ (p.drop (findWordStart p i)).take (i - findWordStart p i) ∧
      i ≤ findWordEnd p i ∧
      findWordEnd p i ≤ p.length ∧
      (findWordEnd p i = p.length ∨ p.get? (findWordEnd p i) = some ' ') ∧
      ' ' ∉ (p.drop i).take (findWordEnd p i - i) ∧
      (getCurrentWordInfo p i).1 =
        (p.drop (findWordStart p i)).take (findWordEnd p i - findWordStart p i) ∧
      (getCurrentWordInfo p i).2 =
        (p.drop (i + 1)).take (findWordEnd p i - (i + 1))) := by
  constructor
  · intro h
    unfold getCurrentWordInfo
    rw [if_pos h]
  · intro hlt
    obtain ⟨hwe1, hwe2, hwe3, hwe4⟩ := findWordEnd_spec p i (Nat.le_of_lt hlt)
    have hw1 : (getCurrentWordInfo p i).1 =
        (p.drop (findWordStart p i)).take (findWordEnd p i - findWordStart p i) := by
      unfold getCurrentWordInfo
      rw [if_neg (Nat.not_le_of_lt hlt)]
    have hw2 : (getCurrentWordInfo p i).2 =
        (p.drop (i + 1)).take (findWordEnd p i - (i + 1)) := by
      unfold getCurrentWordInfo
      rw [if_neg (Nat.not_le_of_lt hlt)]
      dsimp only
      split
      · rfl
      · rename_i h
        have heq : findWordEnd p i - (i + 1) = 0 := by omega
        rw [heq, List.take_zero]
    exact ⟨findWordStart_le p i, findWordStart_boundary p i,
           space_not_mem_window p _ i (findWordStart_nospace p i),
           hwe1, hwe2, hwe3,
           space_not_mem_window p i _ hwe4, hw1, hw2⟩

/-- Witness for C7: the phrase "the cat" past the end (cursor 9) and at
cursor 5 (inside "cat"). -/
theorem word_scanner_characterization_witness :
    getCurrentWordInfo "the cat".data 9 = ([], []) ∧
    (findWordStart "the cat".data 5 ≤ 5 ∧
     (findWordStart "the cat".data 5 = 0 ∨
       ("the cat".data).get? (findWordStart "the cat".data 5 - 1) = some ' ') ∧
     ' ' ∉ (("the cat".data).drop (findWordStart "the cat".data 5)).take
         (5 - findWordStart "the cat".data 5) ∧
     5 ≤ findWordEnd "the cat".data 5 ∧
     findWordEnd "the cat".data 5 ≤ ("the cat".data).length ∧
     (findWordEnd "the cat".data 5 = ("the cat".data).length ∨
       ("the cat".data).get? (findWordEnd "the cat".data 5) = some ' ') ∧
     ' ' ∉ (("the cat".data).drop 5).take (findWordEnd "the cat".data 5 - 5) ∧
     (getCurrentWordInfo "the cat".data 5).1 =
       (("the cat".data).drop (findWordStart "the cat".data 5)).take
         (findWordEnd "the cat".data 5 - findWordStart "the cat".data 5) ∧
     (getCurrentWordInfo "the cat".data 5).2 =
       (("the cat".data).drop (5 + 1)).take (findWordEnd "the cat".data 5 - (5 + 1))) :=
  ⟨(word_scanner_characterization "the cat".data 9).1 (by decide),
   (word_scanner_characterization "the cat".data 5).2 (by decide)⟩

/-- Definition `rowMajorEnum` is the enumeration started at row 0. -/
theorem rowMajorEnum_eq_from_zero (rows : List (List Char)) :
    rowMajorEnum rows = rowMajorEnumFrom 0 rows := rfl

/-- Within one row, the first enumerated position whose key matches equals
the JS `indexOf` result paired with the row index. -/
theorem row_enum_find (c : Char) (row : List Char) (r0 : Nat) : ∀ n,
    (((row.enumFrom n).map (fun k => ((r0, k.1), k.2))).find?
        (fun e => e.2 == c)).map (fun e => e.1) =
      (row.findIdx? (fun x => x == c) n).map (fun j => (r0, j)) := by
  induction row with
  | nil => intro n; rfl
  | cons a l ih =>
    intro n
    rw [List.enumFrom_cons, List.map_cons]
    dsimp only
    by_cases h : (a == c) = true
    · rw [List.find?_cons, List.findIdx?_cons]
      simp only [h, if_pos rfl]
      rfl
    · have hf : (a == c) = false := by simpa using h
      rw [List.find?_cons, List.findIdx?_cons]
      simp only [hf, if_neg, Bool.false_eq_true, not_false_eq_true]
      exact ih (n + 1)

/-- The nested row scan of the code equals taking the first matching entry of
the row-major enumeration. -/
theorem findInRows_eq (c : Char) : ∀ (rows : List (List Char)) (r0 : Nat),
    findInRows c rows r0 =
      ((rowMajorEnumFrom r0 rows).find? (fun e => e.2 == c)).map (fun e => e.1) := by
  intro rows
  induction rows with
  | nil => intro r0; rfl
  | cons row rest ih =>
    intro r0
    have hrow := row_enum_find c row r0 0
    unfold findInRows rowMajorEnumFrom
    rw [List.enumFrom_cons]
    dsimp only [List.map_cons]
    rw [List.flatten_cons, List.find?_append, Option.map_or']
    rw [show ((rest.enumFrom (r0 + 1)).map
          (fun r => r.2.enum.map (fun k => ((r.1, k.1), k.2)))).flatten =
        rowMajorEnumFrom (r0 + 1) rest from rfl]
    rw [← ih (r0 + 1)]
    cases hidx : jsIndexOf row c with
    | some k =>
      rw [show (row.enum.map (fun k => ((r0, k.1), k.2)) : List ((Nat × Nat) × Char)) =
          (row.enumFrom 0).map (fun k => ((r0, k.1), k.2)) from rfl]
      unfold jsIndexOf at hidx
      rw [hrow, hidx]
      rfl
    | none =>
      rw [show (row.enum.map (fun k => ((r0, k.1), k.2)) : List ((Nat × Nat) × Char)) =
          (row.enumFrom 0).map (fun k => ((r0, k.1), k.2)) from rfl]
      unfold jsIndexOf at hidx
      rw [hrow, hidx]
      rfl

/-- The code's layout scan computes the first row-major position. -/
theorem findCharInLayout_eq (c : Char) :
    findCharInLayout c = firstRowMajorPos keyboardLayout c := by
  unfold findCharInLayout firstRowMajorPos
  rw [findInRows_eq c keyboardLayout 0, rowMajorEnum_eq_from_zero]

/-- When every base key of the table occurs in the layout, the code's
shift-table walk returns the layout position of the base key of the first
entry whose shifted value equals the target. -/
theorem findShiftBase_eq (char : Char) : ∀ table : List (Char × Char),
    (∀ e ∈ table, findCharInLayout e.1 ≠ none) →
    findShiftBase char table =
      (table.find? (fun e => e.2 == char)).bind (fun e => findCharInLayout e.1) := by
  intro table
  induction table with
  | nil => intro _; rfl
  | cons e rest ih =>
    intro hb
    obtain ⟨b, sym⟩ := e
    have hbhead : findCharInLayout b ≠ none := hb (b, sym) (List.mem_cons_self _ _)
    have hbrest : ∀ e ∈ rest, findCharInLayout e.1 ≠ none :=
      fun e he => hb e (List.mem_cons_of_mem _ he)
    unfold findShiftBase
    by_cases h : (sym == char) = true
    · rw [if_pos h, List.find?_cons]
      simp only [h]
      show (match findCharInLayout b with
            | some p => some p
            | none => findShiftBase char rest) = findCharInLayout b
      cases hcb : findCharInLayout b with
      | none => exact absurd hcb hbhead
      | some p => rfl
    · rw [if_neg h, List.find?_cons]
      have hf : (sym == char) = false := by simpa using h
      simp only [hf]
      exact ih hbrest

/-- C6: the Keyboard Locator first returns the first row-major layout
position of the lowercased target; failing that, it resolves the target
through the shift-symbol table via the base key of the first entry whose
shifted value equals the target, and otherwise reports not found — and
locating the shifted symbol at-sign yields the position of base key 2,
row 0 column 1. -/
theorem keyboard_locator_follows_spec :
    (∀ c, findKeyPosition c = specKeyLocator c) ∧
    findKeyPosition '@' = some (0, 1) := by
  constructor
  · intro c
    have hbases : ∀ e ∈ shiftSymbols, findCharInLayout e.1 ≠ none := by decide
    unfold findKeyPosition specKeyLocator
    dsimp only
    rw [← findCharInLayout_eq]
    cases h : findCharInLayout c.toLower with
    | some p => rfl
    | none =>
      dsimp only
      rw [findShiftBase_eq c shiftSymbols hbases]
      cases hf : shiftSymbols.find? (fun e => e.2 == c) with
      | some e =>
        dsimp only [Option.bind]
        exact findCharInLayout_eq e.1
      | none => rfl
  · decide

end TypingGame
